import Mathlib

/-
Verification development for the local-ai-chat-agent repository
(src/chat_agent.py): a Streamlit chat front-end over an Ollama backend.

The shallow embedding below translates the per-session state
(`st.session_state` as initialized by `initialize_session_state`) into an
explicit `AppState` record, and the user-facing event handlers of `main`
(model selection with its confirm/cancel buttons, the clear-history
button, and prompt submission) into pure step functions on `AppState`.
Network interaction (`requests`) is modelled by passing the backend's
observable responses in as data.
-/

/-- Message roles used on the wire and in the stored history. -/
inductive Role where
  | user
  | assistant
  | system
deriving DecidableEq, Repr

/-- An entry of `st.session_state.messages`: a dict with `role` and
`content`, plus (for assistant messages, chat_agent.py line 397-401) a
`model` key.  `model = none` models the absence of the key. -/
structure Message where
  role : Role
  content : String
  model : Option String
deriving DecidableEq, Repr

/-- A `{role, content}` dict as placed in the outbound request payload by
`chat_stream` (chat_agent.py lines 248-270); the stored `model` key is not
copied over. -/
structure ChatMsg where
  role : Role
  content : String
deriving DecidableEq, Repr

/-- The per-session state set up by `initialize_session_state`
(chat_agent.py lines 19-32), plus `selected`: the model-selection
dropdown's current value, which Streamlit persists across reruns and
which `main` reads as `new_model` (line 311). -/
structure AppState where
  messages : List Message
  temperature : ℚ
  model : String
  current_chat_model : Option String
  show_model_switch_warning : Bool
  context_length : ℤ
  selected : String
deriving DecidableEq, Repr

/-- The constant `DEFAULT_MODEL` (chat_agent.py line 9). -/
def DEFAULT_MODEL : String := "deepseek-r1:14b"

/-- The session state after `initialize_session_state` on a fresh session
(chat_agent.py lines 19-32).  The dropdown initially shows
`st.session_state.model` (line 314). -/
def initState : AppState :=
  { messages := []
    temperature := 7/10
    model := DEFAULT_MODEL
    current_chat_model := none
    show_model_switch_warning := false
    context_length := 4096
    selected := DEFAULT_MODEL }

/-- Python truthiness of an optional string: `None` and `""` are falsy.
Used where the source tests `st.session_state.current_chat_model` as a
boolean (chat_agent.py lines 36 and 379). -/
def optTruthy : Option String → Bool
  | none => false
  | some s => !(s == "")

/-- The function `handle_model_switch` (chat_agent.py lines 34-41), returning the
updated state together with the function's boolean result.  The guard is
`st.session_state.messages and st.session_state.current_chat_model and
new_model != st.session_state.current_chat_model`. -/
def handle_model_switch (s : AppState) (new_model : String) : AppState × Bool :=
  if s.messages ≠ [] ∧ optTruthy s.current_chat_model = true ∧
     s.current_chat_model ≠ some new_model then
    ({ s with show_model_switch_warning := true }, true)
  else
    ({ s with current_chat_model := some new_model,
              show_model_switch_warning := false }, false)

/-- One execution of the model-selection block of `main`'s sidebar
(chat_agent.py lines 310-334) given which confirmation button, if any,
was pressed during this rerun.  `previous_model` is
`st.session_state.model` and `new_model` is the dropdown value. -/
def sidebarModelStep (s : AppState) (pressedConfirm pressedCancel : Bool) : AppState :=
  let prev := s.model
  let nm := s.selected
  if nm ≠ prev then
    let hs := handle_model_switch s nm
    if hs.2 then
      if pressedConfirm then
        { hs.1 with messages := [], model := nm,
                    current_chat_model := some nm,
                    show_model_switch_warning := false }
      else if pressedCancel then
        { hs.1 with model := prev, show_model_switch_warning := false }
      else hs.1
    else
      { hs.1 with model := nm }
  else s

/-- The function `clear_chat_history` (chat_agent.py lines 293-297): invoked directly
by the sidebar's clear button (lines 359-360); it empties `messages` and
resets `current_chat_model`, then reruns the UI. -/
def clear_chat_history (s : AppState) : AppState :=
  { s with messages := [], current_chat_model := none }

/-- The `full_response` accumulation of `main` (chat_agent.py lines 391-394):
starts at `""` and appends each streamed chunk in arrival order. -/
def strConcat (deltas : List String) : String :=
  deltas.foldl (fun a b => a ++ b) ""

/-- The value of `st.session_state.current_chat_model` after the
`if not st.session_state.current_chat_model:` reset at prompt submission
(chat_agent.py lines 379-380). -/
def newCm (s : AppState) : Option String :=
  if optTruthy s.current_chat_model then s.current_chat_model else some s.model

/-- The prompt-submission handler of `main` (chat_agent.py lines 377-401):
gated on no pending model-switch warning (line 377); sets
`current_chat_model` if falsy; appends the user message; consumes the
stream accumulating `full_response`; appends the assistant message tagged
with `current_chat_model`.  `deltas` is the chunk sequence the stream
produced. -/
def submitStep (s : AppState) (prompt : String) (deltas : List String) : AppState :=
  if s.show_model_switch_warning then s
  else
    { s with current_chat_model := newCm s,
             messages := s.messages ++
               [⟨Role.user, prompt, none⟩,
                ⟨Role.assistant, strConcat deltas, newCm s⟩] }

/-- The user-facing events `main` can process in one rerun. -/
inductive Event where
  | selectModel (m : String) (pressedConfirm pressedCancel : Bool)
  | requestClear
  | submitPrompt (prompt : String) (deltas : List String)

/-- Dispatch of one event to the corresponding handler of `main`.
`selectModel m c k` sets the dropdown to `m` and runs the sidebar block
with button presses `c`, `k`; pressing a confirmation button without
changing the dropdown is `selectModel s.selected c k`. -/
def stepEvent (s : AppState) : Event → AppState
  | .selectModel m c k => sidebarModelStep { s with selected := m } c k
  | .requestClear => clear_chat_history s
  | .submitPrompt prompt deltas => submitStep s prompt deltas

/-- States reachable from a fresh session by user events. -/
inductive Reachable : AppState → Prop where
  | init : Reachable initState
  | step : ∀ s e, Reachable s → Reachable (stepEvent s e)

/-- The fixed system instruction of `chat_stream` (chat_agent.py lines
264-267). -/
def system_msg : ChatMsg :=
  ⟨Role.system,
   "You are a helpful AI assistant. Maintain conversational context and provide consistent responses."⟩

/-- The `messages` field of the payload built by `chat_stream`
(chat_agent.py lines 248-270): the stored history projected to
`{role, content}`, then the current `prompt` as a user message, with the
system message prepended. -/
def chat_stream_messages (history : List Message) (prompt : String) : List ChatMsg :=
  let conversation :=
    history.map (fun m => ChatMsg.mk m.role m.content) ++ [⟨Role.user, prompt⟩]
  system_msg :: conversation

/-- The payload `messages` actually sent when the user submits `prompt`:
`main` first appends the user message to `st.session_state.messages`
(chat_agent.py lines 382-385) and only then calls `chat_stream(prompt)`
(line 393), which re-reads the now-updated history. -/
def payloadMessagesAtSubmit (s : AppState) (prompt : String) : List ChatMsg :=
  chat_stream_messages (s.messages ++ [⟨Role.user, prompt, none⟩]) prompt

/-- Modelled from the spec: `ConversationStore.setParameters(temperature,
contextLength)` "clamps and stores".  The repository itself contains no
clamping code: `main` delegates it to the external `st.slider` widgets,
configured with bounds temperature ∈ [0.0, 1.0] and context length ∈
[512, 8192] (chat_agent.py lines 336-352), so the clamp operation is
modelled here with exactly those bounds. -/
def setParameters (temperature : ℚ) (contextLength : ℤ) : ℚ × ℤ :=
  (max 0 (min 1 temperature), max 512 (min 8192 contextLength))

/-- Invariant relating `current_chat_model` and `model`: the chat's model
is either unset or equal to the dropdown-backed `st.session_state.model`,
and it is set whenever the history is non-empty. -/
def ModelInv (s : AppState) : Prop :=
  (s.current_chat_model = none ∨ s.current_chat_model = some s.model) ∧
  (s.messages ≠ [] → s.current_chat_model ≠ none)

/-- One line delivered by `response.iter_lines()` inside `chat_stream`'s
loop (chat_agent.py lines 285-289), classified by what the body does with
it: an empty line is skipped by `if line:`; a decodable JSON object
without a `"message"` key is skipped; one with `message.content` yields
that text; a line on which `json.loads`/`decode`/the `content` lookup
raises carries the exception text. -/
inductive RawLine where
  | empty
  | noMessageKey
  | content (c : String)
  | raiseDecode (e : String)
deriving DecidableEq, Repr

/-- One streamed exchange as observed by `chat_stream` (chat_agent.py
lines 282-291): `openErr` is an exception from `requests.post` /
`raise_for_status` before any line arrives; `lines` the lines obtained
from `iter_lines`; `transportErr` an exception raised by the transport
after those lines. -/
structure StreamRun where
  openErr : Option String
  lines : List RawLine
  transportErr : Option String
deriving DecidableEq, Repr

/-- The loop body of `chat_stream` over the remaining lines: yields of
`data["message"]["content"]`, until either the lines end (a transport
exception there is caught and yields one `Error: ` message) or a line
raises (caught likewise; the generator then ends). -/
def chat_stream_lines : List RawLine → Option String → List String
  | [], none => []
  | [], some e => ["Error: " ++ e]
  | .empty :: rest, t => chat_stream_lines rest t
  | .noMessageKey :: rest, t => chat_stream_lines rest t
  | .content c :: rest, t => c :: chat_stream_lines rest t
  | .raiseDecode e :: _, _ => ["Error: " ++ e]

/-- The full delta sequence produced by `chat_stream` (chat_agent.py
lines 282-291): the `try` body's yields, with any exception converted by
the `except` clause into a single final `f"Error: {str(e)}"` yield.  The
function is total: no exception propagates to the caller. -/
def chat_stream_deltas (r : StreamRun) : List String :=
  match r.openErr with
  | some e => ["Error: " ++ e]
  | none => chat_stream_lines r.lines r.transportErr

/-- The first failure `chat_stream` encounters in a run, if any: the open
error, else the first raising line, else the trailing transport error. -/
def firstFailAux : List RawLine → Option String → Option String
  | [], t => t
  | .raiseDecode e :: _, _ => some e
  | _ :: rest, t => firstFailAux rest t

def firstFail (r : StreamRun) : Option String :=
  match r.openErr with
  | some e => some e
  | none => firstFailAux r.lines r.transportErr

/-- The content deltas successfully yielded before the first failure. -/
def okLines : List RawLine → List String
  | [] => []
  | .content c :: rest => c :: okLines rest
  | .raiseDecode _ :: _ => []
  | _ :: rest => okLines rest

def okDeltas (r : StreamRun) : List String :=
  match r.openErr with
  | some _ => []
  | none => okLines r.lines

/-- A model entry of the `/api/tags` response: `name = none` models a
dict without a `"name"` key, on which `model["name"]` raises. -/
structure ModelEntry where
  name : Option String
deriving DecidableEq, Repr

/-- The decoded body of the `/api/tags` response: either not a JSON
object (so `.get` raises), or an object with or without a `"models"`
key. -/
inductive TagsBody where
  | notObject (desc : String)
  | object (models : Option (List ModelEntry))
deriving DecidableEq, Repr

/-- The observable outcome of `requests.get(f"{OLLAMA_HOST}/api/tags")`:
an exception (timeout, connection error), or a response with a status
code and a body (`none` models a body on which `response.json()`
raises). -/
inductive HttpResult where
  | failure (e : String)
  | success (status : Nat) (body : Option TagsBody)
deriving DecidableEq, Repr

/-- The function `get_available_models` (chat_agent.py lines 199-208) as a function of
the observed HTTP outcome: any raised exception is caught by the bare
`except` and yields `[]`; a non-200 status yields `[]`; otherwise it
returns `[model["name"] for model in response.json().get("models", [])]`,
which itself raises (hence `[]`) when an entry lacks a name. -/
def get_available_models : HttpResult → List String
  | .failure _ => []
  | .success status body =>
    if status = 200 then
      match body with
      | none => []
      | some (.notObject _) => []
      | some (.object none) => []
      | some (.object (some entries)) =>
        if entries.all (fun e => e.name.isSome) then
          entries.map (fun e => e.name.getD "")
        else []
    else []

/-- Python `str.isspace` on the characters `str.strip()` removes: the
ASCII whitespace and separator controls plus the Unicode space
characters. -/
def isPySpace (c : Char) : Bool :=
  c = ' ' || c = '\t' || c = '\n' || c = '\u000B' || c = '\u000C' || c = '\r' ||
  c = '\u001C' || c = '\u001D' || c = '\u001E' || c = '\u001F' ||
  c = '\u0085' || c = ' ' || c = ' ' ||
  (0x2000 ≤ c.toNat && c.toNat ≤ 0x200A) ||
  c = ' ' || c = ' ' || c = ' ' || c = ' ' || c = '　'

/-- Python `content.split('\n')` on a character sequence: the list of
newline-free pieces, one more than the number of newlines. -/
def splitLines : List Char → List (List Char)
  | [] => [[]]
  | c :: rest =>
    if c = '\n' then [] :: splitLines rest
    else (c :: (splitLines rest).headI) :: (splitLines rest).tail

/-- Python `'\n'.join(...)` on line lists. -/
def joinLines : List (List Char) → List Char
  | [] => []
  | [l] => l
  | l :: l2 :: ls => l ++ '\n' :: joinLines (l2 :: ls)

/-- The three-character fence marker and the fixed opener emitted by
`process_message` (chat_agent.py lines 222 and 237). -/
def fenceMarker : List Char := "```".data

def fenceOpenPython : List Char := "```python".data

/-- The fence test of `process_message` (chat_agent.py line 218):
`line.strip().startswith('```')`.  Dropping only leading whitespace is
equivalent: the trailing strip cannot remove the three non-whitespace
marker characters at the front of the stripped text. -/
def fenceLine (l : List Char) : Bool :=
  fenceMarker.isPrefixOf (l.dropWhile isPySpace)

/-- The loop and final flush of `process_message` (chat_agent.py lines
212-241): `cur` is `current_block`, the result is `parts`.  A closing
fence emits `'```python'`, the joined block and `'```'` as three parts
(only if the block is non-empty); an opening fence flushes the pending
text part; the final flush emits whichever part is pending. -/
def pmGo : List (List Char) → List (List Char) → Bool → List (List Char)
  | [], cur, inCode =>
    if cur = [] then []
    else if inCode then [fenceOpenPython, joinLines cur, fenceMarker]
    else [joinLines cur]
  | l :: rest, cur, inCode =>
    if fenceLine l then
      if inCode then
        (if cur = [] then [] else [fenceOpenPython, joinLines cur, fenceMarker]) ++
          pmGo rest [] false
      else
        (if cur = [] then [] else [joinLines cur]) ++ pmGo rest [] true
    else
      pmGo rest (cur ++ [l]) inCode

/-- The function `process_message` (chat_agent.py lines 210-243): split the content on
newlines, run the fence-normalizing loop, and join the parts with
newlines. -/
def process_message (content : String) : String :=
  String.mk (joinLines (pmGo (splitLines content.data) [] false))

/-- The same traversal producing the output as a flat list of lines
(each emitted part contributing its lines separately); joining it with
newlines provably gives the same text as `pmGo`'s parts. -/
def pmFlat : List (List Char) → List (List Char) → Bool → List (List Char)
  | [], cur, inCode =>
    if cur = [] then []
    else if inCode then fenceOpenPython :: cur ++ [fenceMarker]
    else cur
  | l :: rest, cur, inCode =>
    if fenceLine l then
      if inCode then
        (if cur = [] then [] else fenceOpenPython :: cur ++ [fenceMarker]) ++
          pmFlat rest [] false
      else
        cur ++ pmFlat rest [] true
    else
      pmFlat rest (cur ++ [l]) inCode

/-- Fence lines of the output come in opener/closer pairs: the opener is
always the fixed `'```python'` and the closer the bare marker. -/
def fencePairs : List (List Char) → Bool
  | [] => true
  | [_] => false
  | a :: b :: r => a == fenceOpenPython && b == fenceMarker && fencePairs r

/-- The payload shape in general: the new utterance occurs twice after the
pre-submission history, once copied from the just-updated store and once
appended by `chat_stream` itself. -/
theorem payloadMessagesAtSubmit_eq (s : AppState) (prompt : String) :
    payloadMessagesAtSubmit s prompt =
      system_msg :: (s.messages.map (fun m => ChatMsg.mk m.role m.content) ++
        [⟨Role.user, prompt⟩, ⟨Role.user, prompt⟩]) := by
  simp [payloadMessagesAtSubmit, chat_stream_messages]

/-- Claim C1: the claim states the outbound `messages` field is
`[systemMessage] ++ history ++ [{user, utterance}]` with the utterance
appearing exactly once after the history stored at submission time.  The
code violates this: submitting `"hi"` on an empty history sends
`[system, {user,"hi"}, {user,"hi"}]` — the utterance appears twice,
because `main` stores it before `chat_stream` appends it again. -/
theorem C1_payload_duplicates_utterance :
    payloadMessagesAtSubmit initState "hi" =
      [system_msg, ⟨Role.user, "hi"⟩, ⟨Role.user, "hi"⟩] ∧
    payloadMessagesAtSubmit initState "hi" ≠
      [system_msg, ⟨Role.user, "hi"⟩] := by
  constructor
  · rfl
  · decide

/-- Claim C2, counterexample: from a reachable state whose history holds
two messages, the clear-history button alone (no confirmation step)
empties the history — refuting the claim that a clear request never
clears history by itself.  No `AwaitingClearConfirm` state exists in the
program: the button directly calls `clear_chat_history`
(chat_agent.py lines 359-360). -/
theorem C2_clear_needs_no_confirm :
    (stepEvent initState (.submitPrompt "hi" ["ok"])).messages ≠ [] ∧
    (stepEvent (stepEvent initState (.submitPrompt "hi" ["ok"])) .requestClear).messages
      = [] := by
  constructor
  · decide
  · rfl

/-- Claim C2, amended: a clear request immediately empties the history
and unsets the chat's model in a single step, with no confirmation
required; there is no intermediate awaiting-confirmation state for
clearing. -/
theorem C2_clear_is_immediate (s : AppState) :
    (stepEvent s .requestClear).messages = [] ∧
    (stepEvent s .requestClear).current_chat_model = none := by
  constructor <;> rfl

/-- Claim C3: `setParameters` clamps temperature to [0,1] and context
length to [512,8192] on every write: `setParameters(-1, 100000)` stores
`(0.0, 8192)`, and `setParameters(0.5, 700)` stores exactly `(0.5, 700)`
with no rounding of 700 to a step grid. -/
theorem C3_setParameters_clamps :
    setParameters (-1) 100000 = (0, 8192) ∧
    setParameters (1/2) 700 = (1/2, 700) ∧
    (∀ t : ℚ, ∀ c : ℤ, 0 ≤ (setParameters t c).1 ∧ (setParameters t c).1 ≤ 1 ∧
      512 ≤ (setParameters t c).2 ∧ (setParameters t c).2 ≤ 8192) := by
  refine ⟨by norm_num [setParameters], by norm_num [setParameters], ?_⟩
  intro t c
  refine ⟨le_max_left _ _, ?_, le_max_left _ _, ?_⟩
  · exact max_le (by norm_num) (min_le_left _ _)
  · exact max_le (by norm_num) (min_le_left _ _)

theorem modelInv_init : ModelInv initState := by
  constructor
  · exact Or.inl rfl
  · intro h; exact absurd rfl h

theorem modelInv_sidebar (s : AppState) (c k : Bool) (h : ModelInv s) :
    ModelInv (sidebarModelStep s c k) := by
  obtain ⟨h1, h2⟩ := h
  by_cases hA : s.selected ≠ s.model
  · by_cases hB : s.messages ≠ [] ∧ optTruthy s.current_chat_model = true ∧
        s.current_chat_model ≠ some s.selected
    · cases c
      · cases k
        · simpa [ModelInv, sidebarModelStep, handle_model_switch, hA, hB] using
            ⟨h1, h2 hB.1⟩
        · simpa [ModelInv, sidebarModelStep, handle_model_switch, hA, hB] using
            ⟨h1, h2 hB.1⟩
      · simp [ModelInv, sidebarModelStep, handle_model_switch, hA, hB]
    · simp [ModelInv, sidebarModelStep, handle_model_switch, hA, hB]
  · simpa [ModelInv, sidebarModelStep, hA] using ⟨h1, h2⟩

theorem modelInv_step (s : AppState) (e : Event) (h : ModelInv s) :
    ModelInv (stepEvent s e) := by
  cases e with
  | selectModel m c k =>
    have h' : ModelInv { s with selected := m } := h
    exact modelInv_sidebar _ c k h'
  | requestClear =>
    exact ⟨Or.inl rfl, fun hm => absurd rfl hm⟩
  | submitPrompt prompt deltas =>
    obtain ⟨h1, h2⟩ := h
    by_cases hw : s.show_model_switch_warning = true
    · simpa [ModelInv, stepEvent, submitStep, hw] using ⟨h1, h2⟩
    · by_cases ht : optTruthy s.current_chat_model = true
      · have hcm : s.current_chat_model = some s.model := by
          rcases h1 with h1 | h1
          · rw [h1] at ht; simp [optTruthy] at ht
          · exact h1
        simp [ModelInv, stepEvent, submitStep, newCm, hw, ht, hcm]
      · simp [ModelInv, stepEvent, submitStep, newCm, hw, ht]

theorem modelInv_reachable (s : AppState) (h : Reachable s) : ModelInv s := by
  induction h with
  | init => exact modelInv_init
  | step s e _ ih => exact modelInv_step s e ih

/-- Claim C4: selecting a different model `m` enters the switch
confirmation (the warning state) iff the history is non-empty and `m`
differs from the chat's active model; otherwise the switch is applied
immediately and silently without leaving the idle state.  A cancel from
the confirmation leaves the active model unchanged at its prior value
and returns to idle. -/
theorem C4_switch_confirmation :
    (∀ s : AppState, ∀ m : String, Reachable s →
      s.show_model_switch_warning = false → s.model ≠ "" → m ≠ s.model →
      (((stepEvent s (.selectModel m false false)).show_model_switch_warning = true) ↔
        (s.messages ≠ [] ∧ s.current_chat_model ≠ some m)) ∧
      (s.messages = [] →
        (stepEvent s (.selectModel m false false)).show_model_switch_warning = false ∧
        (stepEvent s (.selectModel m false false)).current_chat_model = some m ∧
        (stepEvent s (.selectModel m false false)).model = m)) ∧
    (∀ t : AppState, t.selected ≠ t.model → t.messages ≠ [] →
      optTruthy t.current_chat_model = true →
      t.current_chat_model ≠ some t.selected →
      (stepEvent t (.selectModel t.selected false true)).show_model_switch_warning = false ∧
      (stepEvent t (.selectModel t.selected false true)).current_chat_model =
        t.current_chat_model ∧
      (stepEvent t (.selectModel t.selected false true)).model = t.model) := by
  constructor
  · intro s m hR _ hmod hne
    obtain ⟨h1, h2⟩ := modelInv_reachable s hR
    have hne' : s.model ≠ m := Ne.symm hne
    by_cases hm : s.messages = []
    · constructor
      · simp [stepEvent, sidebarModelStep, handle_model_switch, hne, hm]
      · intro _
        simp [stepEvent, sidebarModelStep, handle_model_switch, hne, hm]
    · have hcm : s.current_chat_model = some s.model := by
        rcases h1 with h1 | h1
        · exact absurd h1 (h2 hm)
        · exact h1
      have htr : optTruthy (some s.model) = true := by
        simp [optTruthy, hmod]
      constructor
      · simp [stepEvent, sidebarModelStep, handle_model_switch, hne, hm, htr, hcm, hne']
      · intro hcontra; exact absurd hcontra hm
  · intro t hsel hm htr hne2
    simp [stepEvent, sidebarModelStep, handle_model_switch, hsel, hm, htr, hne2]

/-- Concrete instance of C4: after one chat turn the history is non-empty,
so selecting a different model raises the confirmation warning. -/
theorem C4_switch_confirmation_witness :
    (stepEvent initState (.submitPrompt "hi" ["ok"])).show_model_switch_warning = false ∧
    "m2" ≠ (stepEvent initState (.submitPrompt "hi" ["ok"])).model ∧
    (stepEvent (stepEvent initState (.submitPrompt "hi" ["ok"]))
      (.selectModel "m2" false false)).show_model_switch_warning = true :=
  ⟨by decide, by decide,
    ((C4_switch_confirmation.1 (stepEvent initState (.submitPrompt "hi" ["ok"])) "m2"
        (Reachable.step initState (.submitPrompt "hi" ["ok"]) Reachable.init)
        (by decide) (by decide) (by decide)).1).mpr ⟨by decide, by decide⟩⟩

/-- The character sequence of the accumulated `full_response` is the
concatenation of the chunks' character sequences in arrival order. -/
theorem strConcat_data (l : List String) :
    (strConcat l).data = (l.map String.data).flatten := by
  have key : ∀ (l : List String) (a : String),
      (List.foldl (fun x y => x ++ y) a l).data = a.data ++ (l.map String.data).flatten := by
    intro l
    induction l with
    | nil => intro a; simp
    | cons x xs ih =>
      intro a
      simp only [List.foldl_cons, List.map_cons, List.flatten_cons]
      rw [ih (a ++ x), String.data_append]
      simp [List.append_assoc]
  simpa using key l ""

/-- Claim C6: on stream completion the assistant message appended to the
history has content equal to the concatenation of the received deltas in
arrival order (preceded by the user message just stored). -/
theorem C6_reply_is_delta_concat :
    ∀ (s : AppState) (prompt : String) (deltas : List String),
      s.show_model_switch_warning = false →
      (stepEvent s (.submitPrompt prompt deltas)).messages =
        s.messages ++ [⟨Role.user, prompt, none⟩,
                       ⟨Role.assistant, strConcat deltas, newCm s⟩] ∧
      (strConcat deltas).data = (deltas.map String.data).flatten := by
  intro s prompt deltas hw
  constructor
  · simp [stepEvent, submitStep, hw]
  · exact strConcat_data deltas

/-- Concrete instance of C6: from an empty history, submitting `"hi"`
with streamed deltas `"Hel"`, `"lo!"` yields exactly
`[{user,"hi"}, {assistant,"Hello!", model := the default model}]`. -/
theorem C6_reply_is_delta_concat_witness :
    initState.show_model_switch_warning = false ∧
    (stepEvent initState (.submitPrompt "hi" ["Hel", "lo!"])).messages =
      [⟨Role.user, "hi", none⟩,
       ⟨Role.assistant, "Hello!", some "deepseek-r1:14b"⟩] :=
  ⟨rfl, by
    have h := (C6_reply_is_delta_concat initState "hi" ["Hel", "lo!"] rfl).1
    rw [h]; decide⟩

/-- The sidebar model block either leaves the stored history untouched or
(on a confirmed switch) empties it; it never appends. -/
theorem sidebar_messages (s : AppState) (c k : Bool) :
    (sidebarModelStep s c k).messages = s.messages ∨
    (sidebarModelStep s c k).messages = [] := by
  by_cases hA : s.selected ≠ s.model
  · by_cases hB : s.messages ≠ [] ∧ optTruthy s.current_chat_model = true ∧
        s.current_chat_model ≠ some s.selected
    · cases c
      · cases k <;> simp [sidebarModelStep, handle_model_switch, hA, hB]
      · simp [sidebarModelStep, handle_model_switch, hA, hB]
    · simp [sidebarModelStep, handle_model_switch, hA, hB]
  · simp [sidebarModelStep, hA]

/-- Claim C8: in every reachable state the stored history contains at most
one system message — in fact none at all: every operation that appends to
the history appends only user or assistant messages, the fixed system
instruction existing only transiently inside `chat_stream`'s request
assembly. -/
theorem C8_no_system_message :
    ∀ s : AppState, Reachable s →
      (∀ m ∈ s.messages, m.role = Role.user ∨ m.role = Role.assistant) ∧
      s.messages.countP (fun m => m.role == Role.system) ≤ 1 := by
  have key : ∀ s : AppState, Reachable s →
      ∀ m ∈ s.messages, m.role = Role.user ∨ m.role = Role.assistant := by
    intro s h
    induction h with
    | init => intro m hm; simp [initState] at hm
    | step s e _ ih =>
      cases e with
      | selectModel mm c k =>
        intro m hm
        rcases sidebar_messages { s with selected := mm } c k with he | he
        · rw [show (stepEvent s (.selectModel mm c k)).messages =
              (sidebarModelStep { s with selected := mm } c k).messages from rfl, he] at hm
          exact ih m hm
        · rw [show (stepEvent s (.selectModel mm c k)).messages =
              (sidebarModelStep { s with selected := mm } c k).messages from rfl, he] at hm
          simp at hm
      | requestClear =>
        intro m hm
        simp [stepEvent, clear_chat_history] at hm
      | submitPrompt prompt deltas =>
        intro m hm
        by_cases hw : s.show_model_switch_warning = true
        · simp only [stepEvent, submitStep, hw, if_pos] at hm
          exact ih m hm
        · simp only [stepEvent, submitStep, hw, if_neg, Bool.false_eq_true,
            not_false_iff] at hm
          simp only [List.mem_append, List.mem_cons, List.mem_singleton] at hm
          rcases hm with hm | hm | hm
          · exact ih m hm
          · rw [hm]; exact Or.inl rfl
          · rcases hm with hm | hm
            · rw [hm]; exact Or.inr rfl
            · simp at hm
  intro s h
  refine ⟨key s h, ?_⟩
  have h0 : s.messages.countP (fun m => m.role == Role.system) = 0 := by
    rw [List.countP_eq_zero]
    intro m hm
    rcases key s h m hm with h' | h' <;> simp [h']
  omega

/-- Concrete instance of C8 after one chat turn. -/
theorem C8_no_system_message_witness :
    (stepEvent initState (.submitPrompt "hi" ["ok"])).messages.countP
      (fun m => m.role == Role.system) ≤ 1 :=
  (C8_no_system_message _ (Reachable.step _ _ Reachable.init)).2

/-- Claim C5: if a network or decode failure occurs at any point of a
streamed reply, the delta sequence equals the successfully decoded deltas
followed by exactly one additional terminal delta whose text begins with
`"Error: "`; and with no failure, no such delta is appended.  No
exception propagates: `chat_stream_deltas` is a total function of the
observed run. -/
theorem C5_stream_error_policy :
    (∀ (r : StreamRun) (e : String), firstFail r = some e →
      chat_stream_deltas r = okDeltas r ++ ["Error: " ++ e]) ∧
    (∀ r : StreamRun, firstFail r = none →
      chat_stream_deltas r = okDeltas r) := by
  have key : ∀ (ls : List RawLine) (t : Option String),
      (∀ e : String, firstFailAux ls t = some e →
        chat_stream_lines ls t = okLines ls ++ ["Error: " ++ e]) ∧
      (firstFailAux ls t = none → chat_stream_lines ls t = okLines ls) := by
    intro ls
    induction ls with
    | nil =>
      intro t
      cases t with
      | none => exact ⟨fun e he => by simp [firstFailAux] at he, fun _ => rfl⟩
      | some e0 =>
        refine ⟨fun e he => ?_, fun h => by simp [firstFailAux] at h⟩
        have : e0 = e := by simpa [firstFailAux] using he
        simp [chat_stream_lines, okLines, this]
    | cons l rest ih =>
      intro t
      cases l with
      | empty =>
        exact ⟨fun e he => by
            simpa [chat_stream_lines, okLines] using (ih t).1 e (by simpa [firstFailAux] using he),
          fun h => by
            simpa [chat_stream_lines, okLines] using (ih t).2 (by simpa [firstFailAux] using h)⟩
      | noMessageKey =>
        exact ⟨fun e he => by
            simpa [chat_stream_lines, okLines] using (ih t).1 e (by simpa [firstFailAux] using he),
          fun h => by
            simpa [chat_stream_lines, okLines] using (ih t).2 (by simpa [firstFailAux] using h)⟩
      | content c =>
        exact ⟨fun e he => by
            simpa [chat_stream_lines, okLines] using (ih t).1 e (by simpa [firstFailAux] using he),
          fun h => by
            simpa [chat_stream_lines, okLines] using (ih t).2 (by simpa [firstFailAux] using h)⟩
      | raiseDecode e0 =>
        refine ⟨fun e he => ?_, fun h => by simp [firstFailAux] at h⟩
        have : e0 = e := by simpa [firstFailAux] using he
        simp [chat_stream_lines, okLines, this]
  constructor
  · intro r e he
    cases hr : r.openErr with
    | some e0 =>
      have : e0 = e := by simpa [firstFail, hr] using he
      simp [chat_stream_deltas, okDeltas, hr, this]
    | none =>
      have he' : firstFailAux r.lines r.transportErr = some e := by
        simpa [firstFail, hr] using he
      simpa [chat_stream_deltas, okDeltas, hr] using (key r.lines r.transportErr).1 e he'
  · intro r h
    cases hr : r.openErr with
    | some e0 => simp [firstFail, hr] at h
    | none =>
      have h' : firstFailAux r.lines r.transportErr = none := by
        simpa [firstFail, hr] using h
      simpa [chat_stream_deltas, okDeltas, hr] using (key r.lines r.transportErr).2 h'

/-- Concrete instance of C5: a stream that yields one chunk and then hits
a decode failure ends with the single terminal error delta. -/
theorem C5_stream_error_policy_witness :
    firstFail ⟨none, [.content "Hel", .raiseDecode "boom"], none⟩ = some "boom" ∧
    chat_stream_deltas ⟨none, [.content "Hel", .raiseDecode "boom"], none⟩ =
      ["Hel", "Error: boom"] :=
  ⟨by decide,
    by
      have h := C5_stream_error_policy.1
        ⟨none, [.content "Hel", .raiseDecode "boom"], none⟩ "boom" (by decide)
      simpa using h⟩

/-- Claim C7: every failure mode of the model-list fetch — a raised
request exception, a non-success status, an undecodable body, a
non-object body, a missing `models` field, or an entry missing its
`name` — produces the empty list with no exception propagating
(`get_available_models` is total); on success it returns the `name`
field of each listed model. -/
theorem C7_listModels_failure_empty :
    (∀ e : String, get_available_models (.failure e) = []) ∧
    (∀ (status : Nat) (body : Option TagsBody), status ≠ 200 →
      get_available_models (.success status body) = []) ∧
    get_available_models (.success 200 none) = [] ∧
    (∀ d : String, get_available_models (.success 200 (some (.notObject d))) = []) ∧
    get_available_models (.success 200 (some (.object none))) = [] ∧
    (∀ entries : List ModelEntry, (∃ e ∈ entries, e.name = none) →
      get_available_models (.success 200 (some (.object (some entries)))) = []) ∧
    (∀ names : List String,
      get_available_models
        (.success 200 (some (.object (some (names.map (fun n => ⟨some n⟩)))))) = names) := by
  refine ⟨fun e => rfl, fun status body h => by simp [get_available_models, h],
    rfl, fun d => rfl, rfl, ?_, ?_⟩
  · intro entries ⟨e, he, hn⟩
    have hall : entries.all (fun e => e.name.isSome) = false := by
      rw [List.all_eq_false]
      exact ⟨e, he, by simp [hn]⟩
    simp [get_available_models, hall]
  · intro names
    have hall : (names.map (fun n => ModelEntry.mk (some n))).all
        (fun e => e.name.isSome) = true := by
      rw [List.all_eq_true]
      intro e he
      rcases List.mem_map.mp he with ⟨n, _, rfl⟩
      rfl
    have hcomp : ((fun e : ModelEntry => e.name.getD "") ∘ fun n : String => ModelEntry.mk (some n)) = id :=
      funext fun n => rfl
    simp [get_available_models, hall, List.map_map, hcomp]

/-- Concrete instance of C7: an HTTP 500 yields the empty list. -/
theorem C7_listModels_failure_empty_witness :
    get_available_models (.success 500 (some (.object (some [⟨some "m1"⟩])))) = [] :=
  C7_listModels_failure_empty.2.1 500 (some (.object (some [⟨some "m1"⟩]))) (by decide)

theorem joinLines_append (xs ys : List (List Char)) :
    joinLines (xs ++ ys) =
      if xs = [] then joinLines ys
      else if ys = [] then joinLines xs
      else joinLines xs ++ '\n' :: joinLines ys := by
  induction xs with
  | nil => simp
  | cons x xs ih =>
    cases xs with
    | nil =>
      cases ys with
      | nil => simp [joinLines]
      | cons y ys2 => simp [joinLines]
    | cons x2 xs2 =>
      cases ys with
      | nil => simp
      | cons y ys2 =>
        have h1 : joinLines (x :: x2 :: (xs2 ++ y :: ys2)) =
            x ++ '\n' :: joinLines (x2 :: (xs2 ++ y :: ys2)) := rfl
        have h2 : joinLines (x :: x2 :: xs2) = x ++ '\n' :: joinLines (x2 :: xs2) := rfl
        simp only [List.cons_append] at ih ⊢
        rw [h1, ih, h2]
        simp [List.append_assoc]

theorem joinLines_block (cur : List (List Char)) (h : cur ≠ []) :
    joinLines [fenceOpenPython, joinLines cur, fenceMarker] =
      joinLines (fenceOpenPython :: cur ++ [fenceMarker]) := by
  have h1 : joinLines (fenceOpenPython :: cur ++ [fenceMarker]) =
      fenceOpenPython ++ '\n' :: joinLines (cur ++ [fenceMarker]) := by
    cases cur with
    | nil => exact absurd rfl h
    | cons l ls => rfl
  rw [h1, joinLines_append cur [fenceMarker]]
  simp [h, joinLines]

theorem pmGo_nil (cur : List (List Char)) (b : Bool) :
    pmGo [] cur b =
      if cur = [] then []
      else if b then [fenceOpenPython, joinLines cur, fenceMarker]
      else [joinLines cur] := rfl

theorem pmFlat_nil (cur : List (List Char)) (b : Bool) :
    pmFlat [] cur b =
      if cur = [] then []
      else if b then fenceOpenPython :: cur ++ [fenceMarker]
      else cur := rfl

theorem pmGo_fence_true (l : List Char) (rest cur : List (List Char))
    (hf : fenceLine l = true) :
    pmGo (l :: rest) cur true =
      (if cur = [] then [] else [fenceOpenPython, joinLines cur, fenceMarker]) ++
        pmGo rest [] false := by
  simp [pmGo, hf]

theorem pmGo_fence_false (l : List Char) (rest cur : List (List Char))
    (hf : fenceLine l = true) :
    pmGo (l :: rest) cur false =
      (if cur = [] then [] else [joinLines cur]) ++ pmGo rest [] true := by
  simp [pmGo, hf]

theorem pmGo_text (l : List Char) (rest cur : List (List Char)) (b : Bool)
    (hf : fenceLine l = false) :
    pmGo (l :: rest) cur b = pmGo rest (cur ++ [l]) b := by
  simp [pmGo, hf]

theorem pmFlat_fence_true (l : List Char) (rest cur : List (List Char))
    (hf : fenceLine l = true) :
    pmFlat (l :: rest) cur true =
      (if cur = [] then [] else fenceOpenPython :: cur ++ [fenceMarker]) ++
        pmFlat rest [] false := by
  simp [pmFlat, hf]

theorem pmFlat_fence_false (l : List Char) (rest cur : List (List Char))
    (hf : fenceLine l = true) :
    pmFlat (l :: rest) cur false = cur ++ pmFlat rest [] true := by
  simp [pmFlat, hf]

theorem pmFlat_text (l : List Char) (rest cur : List (List Char)) (b : Bool)
    (hf : fenceLine l = false) :
    pmFlat (l :: rest) cur b = pmFlat rest (cur ++ [l]) b := by
  simp [pmFlat, hf]

theorem pmGo_eq_nil_iff (ls : List (List Char)) :
    ∀ (cur : List (List Char)) (b : Bool),
      (pmGo ls cur b = [] ↔ pmFlat ls cur b = []) := by
  induction ls with
  | nil =>
    intro cur b
    by_cases h : cur = [] <;> cases b <;>
      simp [pmGo_nil, pmFlat_nil, h]
  | cons l rest ih =>
    intro cur b
    by_cases hf : fenceLine l
    · cases b with
      | true =>
        rw [pmGo_fence_true l rest cur hf, pmFlat_fence_true l rest cur hf]
        by_cases h : cur = [] <;> simp [h, ih [] false]
      | false =>
        rw [pmGo_fence_false l rest cur hf, pmFlat_fence_false l rest cur hf]
        by_cases h : cur = [] <;> simp [h, ih [] true]
    · rw [pmGo_text l rest cur b (by simpa using hf),
        pmFlat_text l rest cur b (by simpa using hf)]
      exact ih (cur ++ [l]) b

theorem joinLines_pmGo_eq (ls : List (List Char)) :
    ∀ (cur : List (List Char)) (b : Bool),
      joinLines (pmGo ls cur b) = joinLines (pmFlat ls cur b) := by
  induction ls with
  | nil =>
    intro cur b
    by_cases h : cur = []
    · simp [pmGo_nil, pmFlat_nil, h]
    · cases b with
      | true =>
        rw [pmGo_nil, pmFlat_nil, if_neg h, if_neg h]
        simpa using joinLines_block cur h
      | false =>
        rw [pmGo_nil, pmFlat_nil, if_neg h, if_neg h]
        cases cur with
        | nil => exact absurd rfl h
        | cons c cs => rfl
  | cons l rest ih =>
    intro cur b
    by_cases hf : fenceLine l
    · cases b with
      | true =>
        rw [pmGo_fence_true l rest cur hf, pmFlat_fence_true l rest cur hf]
        by_cases h : cur = []
        · simp [h, ih [] false]
        · rw [if_neg h, if_neg h, joinLines_append, joinLines_append]
          have hnil := pmGo_eq_nil_iff rest [] false
          by_cases hr : pmGo rest [] false = []
          · have hr2 : pmFlat rest [] false = [] := hnil.mp hr
            simp [hr, hr2, joinLines_block cur h]
          · have hr2 : pmFlat rest [] false ≠ [] := fun hh => hr (hnil.mpr hh)
            simp [hr, hr2, joinLines_block cur h, ih [] false]
      | false =>
        rw [pmGo_fence_false l rest cur hf, pmFlat_fence_false l rest cur hf]
        by_cases h : cur = []
        · simp [h, ih [] true]
        · rw [if_neg h, joinLines_append, joinLines_append]
          have hnil := pmGo_eq_nil_iff rest [] true
          by_cases hr : pmGo rest [] true = []
          · have hr2 : pmFlat rest [] true = [] := hnil.mp hr
            simp [hr, hr2, h, joinLines]
          · have hr2 : pmFlat rest [] true ≠ [] := fun hh => hr (hnil.mpr hh)
            simp [hr, hr2, h, joinLines, ih [] true]
    · rw [pmGo_text l rest cur b (by simpa using hf),
        pmFlat_text l rest cur b (by simpa using hf)]
      exact ih (cur ++ [l]) b

theorem splitLines_ne_nil (cs : List Char) : splitLines cs ≠ [] := by
  cases cs with
  | nil => simp [splitLines]
  | cons c rest => by_cases hc : c = '\n' <;> simp [splitLines, hc]

theorem splitLines_cons_newline (rest : List Char) :
    splitLines ('\n' :: rest) = [] :: splitLines rest := by
  simp [splitLines]

theorem splitLines_cons_other (c : Char) (rest : List Char) (hc : c ≠ '\n') :
    splitLines (c :: rest) =
      (c :: (splitLines rest).headI) :: (splitLines rest).tail := by
  simp [splitLines, hc]

theorem splitLines_no_newline (cs : List Char) :
    ∀ l ∈ splitLines cs, '\n' ∉ l := by
  induction cs with
  | nil => intro l hl; simp [splitLines] at hl; simp [hl]
  | cons c rest ih =>
    intro l hl
    cases h : splitLines rest with
    | nil => exact absurd h (splitLines_ne_nil rest)
    | cons l0 ls =>
      have hmem0 : l0 ∈ splitLines rest := by rw [h]; exact List.mem_cons_self l0 ls
      by_cases hc : c = '\n'
      · rw [hc, splitLines_cons_newline, h] at hl
        rcases List.mem_cons.mp hl with hl | hl
        · simp [hl]
        · rcases List.mem_cons.mp hl with hl | hl
          · rw [hl]; exact ih l0 hmem0
          · exact ih l (by rw [h]; exact List.mem_cons_of_mem l0 hl)
      · rw [splitLines_cons_other c rest hc, h] at hl
        simp only [List.headI, List.tail_cons] at hl
        rcases List.mem_cons.mp hl with hl | hl
        · have h0 : '\n' ∉ l0 := ih l0 hmem0
          rw [hl]
          intro hmem
          rcases List.mem_cons.mp hmem with h' | h'
          · exact hc h'.symm
          · exact h0 h'
        · exact ih l (by rw [h]; exact List.mem_cons_of_mem l0 hl)

theorem joinLines_splitLines (cs : List Char) :
    joinLines (splitLines cs) = cs := by
  induction cs with
  | nil => rfl
  | cons c rest ih =>
    cases h : splitLines rest with
    | nil => exact absurd h (splitLines_ne_nil rest)
    | cons l ls =>
      rw [h] at ih
      by_cases hc : c = '\n'
      · rw [hc, splitLines_cons_newline, h]
        have h1 : joinLines ([] :: l :: ls) = [] ++ '\n' :: joinLines (l :: ls) := rfl
        rw [h1, ih]
        rfl
      · rw [splitLines_cons_other c rest hc, h]
        simp only [List.headI, List.tail_cons]
        cases ls with
        | nil =>
          have h1 : joinLines [c :: l] = c :: l := rfl
          have h2 : joinLines [l] = l := rfl
          rw [h1]
          rw [h2] at ih
          rw [ih]
        | cons l2 ls2 =>
          have h1 : joinLines ((c :: l) :: l2 :: ls2) =
              (c :: l) ++ '\n' :: joinLines (l2 :: ls2) := rfl
          have h2 : joinLines (l :: l2 :: ls2) = l ++ '\n' :: joinLines (l2 :: ls2) := rfl
          rw [h1]
          rw [h2] at ih
          simp [← ih]

theorem splitLines_of_no_newline (l : List Char) (h : '\n' ∉ l) :
    splitLines l = [l] := by
  induction l with
  | nil => rfl
  | cons c rest ih =>
    have hc : c ≠ '\n' := fun hh => h (hh ▸ List.mem_cons_self c rest)
    have hr : '\n' ∉ rest := fun hh => h (List.mem_cons_of_mem c hh)
    rw [splitLines_cons_other c rest hc, ih hr]
    rfl

theorem splitLines_append_newline (l cs : List Char) (h : '\n' ∉ l) :
    splitLines (l ++ '\n' :: cs) = l :: splitLines cs := by
  induction l with
  | nil =>
    rw [List.nil_append, splitLines_cons_newline]
  | cons c rest ih =>
    have hc : c ≠ '\n' := fun hh => h (hh ▸ List.mem_cons_self c rest)
    have hr : '\n' ∉ rest := fun hh => h (List.mem_cons_of_mem c hh)
    rw [List.cons_append, splitLines_cons_other c _ hc, ih hr]
    rfl

theorem splitLines_joinLines (out : List (List Char)) (hne : out ≠ [])
    (h : ∀ l ∈ out, '\n' ∉ l) : splitLines (joinLines out) = out := by
  induction out with
  | nil => exact absurd rfl hne
  | cons l ls ih =>
    cases ls with
    | nil =>
      have h1 : joinLines [l] = l := rfl
      rw [h1, splitLines_of_no_newline l (h l (List.mem_cons_self l []))]
    | cons l2 ls2 =>
      have h1 : joinLines (l :: l2 :: ls2) = l ++ '\n' :: joinLines (l2 :: ls2) := rfl
      rw [h1, splitLines_append_newline _ _ (h l (List.mem_cons_self l _)),
        ih (by simp) (fun x hx => h x (List.mem_cons_of_mem l hx))]

theorem fenceLine_open : fenceLine fenceOpenPython = true := by decide

theorem fenceLine_marker : fenceLine fenceMarker = true := by decide

theorem filter_fence_nil (cur : List (List Char))
    (h : ∀ l ∈ cur, fenceLine l = false) : cur.filter fenceLine = [] := by
  rw [List.filter_eq_nil_iff]
  intro a ha
  simp [h a ha]

theorem pmFlat_filter_fencePairs (ls : List (List Char)) :
    ∀ (cur : List (List Char)) (b : Bool), (∀ l ∈ cur, fenceLine l = false) →
      fencePairs ((pmFlat ls cur b).filter fenceLine) = true := by
  induction ls with
  | nil =>
    intro cur b h
    by_cases hc : cur = []
    · simp [pmFlat_nil, hc, List.filter_nil, fencePairs]
    · cases b with
      | true =>
        rw [pmFlat_nil, if_neg hc, if_pos rfl]
        simp [List.filter_cons, List.filter_append, fenceLine_open, fenceLine_marker,
          filter_fence_nil cur h, fencePairs]
      | false =>
        rw [pmFlat_nil, if_neg hc, if_neg (by simp)]
        rw [filter_fence_nil cur h]
        rfl
  | cons l rest ih =>
    intro cur b h
    by_cases hf : fenceLine l
    · cases b with
      | true =>
        rw [pmFlat_fence_true l rest cur hf, List.filter_append]
        by_cases hc : cur = []
        · rw [if_pos hc]
          simpa using ih [] false (by simp)
        · rw [if_neg hc]
          have hrec := ih [] false (by simp)
          simp [List.filter_cons, List.filter_append, fenceLine_open, fenceLine_marker,
            filter_fence_nil cur h, fencePairs, hrec]
      | false =>
        rw [pmFlat_fence_false l rest cur hf, List.filter_append,
          filter_fence_nil cur h]
        simpa using ih [] true (by simp)
    · rw [pmFlat_text l rest cur b (by simpa using hf)]
      refine ih (cur ++ [l]) b ?_
      intro x hx
      rcases List.mem_append.mp hx with hx | hx
      · exact h x hx
      · rw [List.mem_singleton.mp hx]
        simpa using hf

theorem pmFlat_no_newline (ls : List (List Char)) :
    ∀ (cur : List (List Char)) (b : Bool),
      (∀ x ∈ ls, '\n' ∉ x) → (∀ x ∈ cur, '\n' ∉ x) →
      ∀ l ∈ pmFlat ls cur b, '\n' ∉ l := by
  have hop : '\n' ∉ fenceOpenPython := by decide
  have hmk : '\n' ∉ fenceMarker := by decide
  induction ls with
  | nil =>
    intro cur b _ hcur l hl
    by_cases hc : cur = []
    · rw [pmFlat_nil, if_pos hc] at hl
      simp at hl
    · cases b with
      | true =>
        rw [pmFlat_nil, if_neg hc, if_pos rfl] at hl
        rcases List.mem_cons.mp hl with hl | hl
        · rw [hl]; exact hop
        · rcases List.mem_append.mp hl with hl | hl
          · exact hcur l hl
          · rw [List.mem_singleton.mp hl]; exact hmk
      | false =>
        rw [pmFlat_nil, if_neg hc, if_neg (by simp)] at hl
        exact hcur l hl
  | cons x rest ih =>
    intro cur b hls hcur l hl
    have hx : '\n' ∉ x := hls x (List.mem_cons_self _ _)
    have hrest : ∀ y ∈ rest, '\n' ∉ y := fun y hy => hls y (List.mem_cons_of_mem _ hy)
    by_cases hf : fenceLine x
    · cases b with
      | true =>
        rw [pmFlat_fence_true x rest cur hf] at hl
        rcases List.mem_append.mp hl with hl | hl
        · by_cases hc : cur = []
          · rw [if_pos hc] at hl; simp at hl
          · rw [if_neg hc] at hl
            rcases List.mem_cons.mp hl with hl | hl
            · rw [hl]; exact hop
            · rcases List.mem_append.mp hl with hl | hl
              · exact hcur l hl
              · rw [List.mem_singleton.mp hl]; exact hmk
        · exact ih [] false hrest (by simp) l hl
      | false =>
        rw [pmFlat_fence_false x rest cur hf] at hl
        rcases List.mem_append.mp hl with hl | hl
        · exact hcur l hl
        · exact ih [] true hrest (by simp) l hl
    · rw [pmFlat_text x rest cur b (by simpa using hf)] at hl
      refine ih (cur ++ [x]) b hrest ?_ l hl
      intro y hy
      rcases List.mem_append.mp hy with hy | hy
      · exact hcur y hy
      · rw [List.mem_singleton.mp hy]; exact hx

/-- Claim C9: for every input string, the fence lines of
`process_message`'s output come in pairs whose opener is always the
fixed `'```python'` tag and whose closer is the bare marker — every
emitted fenced code block is opened with `'```python'` regardless of the
language tag (or absence of one) on the corresponding input fence. -/
theorem C9_fences_open_with_python (content : String) :
    fencePairs ((splitLines (process_message content).data).filter fenceLine) = true := by
  have hdata : (process_message content).data =
      joinLines (pmGo (splitLines content.data) [] false) := rfl
  rw [hdata, joinLines_pmGo_eq (splitLines content.data) [] false]
  by_cases hout : pmFlat (splitLines content.data) [] false = []
  · rw [hout]
    decide
  · rw [splitLines_joinLines _ hout
      (pmFlat_no_newline _ [] false (splitLines_no_newline content.data) (by simp))]
    exact pmFlat_filter_fencePairs _ [] false (by simp)

theorem pmGo_all_text (ls : List (List Char)) :
    ∀ cur : List (List Char), (∀ l ∈ ls, fenceLine l = false) →
      pmGo ls cur false =
        if cur ++ ls = [] then [] else [joinLines (cur ++ ls)] := by
  induction ls with
  | nil => intro cur h; simp [pmGo_nil]
  | cons l rest ih =>
    intro cur h
    have hf : fenceLine l = false := h l (List.mem_cons_self _ _)
    rw [pmGo_text l rest cur false hf,
      ih (cur ++ [l]) (fun x hx => h x (List.mem_cons_of_mem _ hx))]
    simp [List.append_assoc]

/-- Claim C10: on any input in which no line, after stripping leading and
trailing whitespace, starts with the three-character fence marker,
`process_message` is the identity. -/
theorem C10_identity_without_fences (content : String)
    (h : ∀ l ∈ splitLines content.data, fenceLine l = false) :
    process_message content = content := by
  have h1 := pmGo_all_text (splitLines content.data) [] h
  rw [List.nil_append, if_neg (splitLines_ne_nil content.data)] at h1
  show String.mk (joinLines (pmGo (splitLines content.data) [] false)) = content
  rw [h1]
  have h2 : joinLines [joinLines (splitLines content.data)] =
      joinLines (splitLines content.data) := rfl
  rw [h2, joinLines_splitLines]

/-- Concrete instance of C10: a fence-free two-line input is returned
unchanged. -/
theorem C10_identity_without_fences_witness :
    (∀ l ∈ splitLines ("hello\nworld").data, fenceLine l = false) ∧
    process_message "hello\nworld" = "hello\nworld" :=
  ⟨by decide, C10_identity_without_fences "hello\nworld" (by decide)⟩
